import Mathlib

/-!
Shallow embedding of `src/app/app.py` (Rule 118 — TRANSLATE with obsolete
CODE PAGE).  Text is modelled as `List Char`.  The Python regular
expressions of the source are translated into executable scanning
functions whose behaviour matches the regex engine on the relevant
pattern class (all patterns in the source are deterministic after the
standard greedy/backtracking analysis, recorded in comments below).
Python's `\s`, `\w` and `str.strip` are modelled on their ASCII
fragment, which is the alphabet the rule is concerned with.
-/

namespace Rule118

/-- ASCII fragment of Python `\s` / `str.strip` whitespace. -/
def isSpacePy (c : Char) : Bool :=
  c == ' ' || c == '\t' || c == '\n' || c == '\r' ||
  c == Char.ofNat 11 || c == Char.ofNat 12

/-- ASCII fragment of Python `\w`: alphanumeric or underscore. -/
def isWordChar (c : Char) : Bool :=
  c.isAlphanum || c == '_'

/-- The single-quote character (written via its code point). -/
def sq : Char := Char.ofNat 39

/-- Python slice `text[a:b]` for `0 ≤ a, b` (clamping at the ends is
what `List.take`/`List.drop` do as well). -/
def pySlice (text : List Char) (a b : Nat) : List Char :=
  (text.take b).drop a

-- ---------------------------------------------------------------------------
-- Helpers (`line_of_offset`, `snippet_at`)
-- ---------------------------------------------------------------------------

/-- `line_of_offset`: `text.count("\n", 0, off) + 1`. -/
def line_of_offset (text : List Char) (off : Nat) : Nat :=
  (text.take off).count '\n' + 1

/-- `str.replace("\n", "\\n")`: every newline becomes the two characters
backslash, `n`. -/
def escNl : List Char → List Char
  | [] => []
  | c :: cs => if c = '\n' then '\\' :: 'n' :: escNl cs else c :: escNl cs

/-- `snippet_at`: window `[max(0, start-60), min(len(text), end+60)]`
with newlines escaped. -/
def snippet_at (text : List Char) (start en : Nat) : List Char :=
  let s := max 0 (start - 60)
  let e := min text.length (en + 60)
  escNl (pySlice text s e)

-- ---------------------------------------------------------------------------
-- Comment stripper
-- ---------------------------------------------------------------------------

/-- `strip_inline_quotes` = `re.sub(r'".*?(?=\n|$)', '', s)`.
A match runs from a double quote up to (excluding) the next newline or
the end of the text; the scan then resumes at that newline.  The state
records whether we are currently inside such a deleted run. -/
def stripInlineGo : Bool → List Char → List Char
  | _, [] => []
  | false, c :: cs =>
      if c = '"' then stripInlineGo true cs else c :: stripInlineGo false cs
  | true, c :: cs =>
      if c = '\n' then c :: stripInlineGo false cs else stripInlineGo true cs

def strip_inline_quotes (s : List Char) : List Char :=
  stripInlineGo false s

/-- State of the scan for `re.sub(r'(?m)^\s*\*.*$', '', s)`:
`lineStart pend` — at a line start, `pend` (reversed) is the whitespace
read so far whose fate (kept, or absorbed by a `*`-comment match) is
still undecided; note `\s*` matches newlines, so `pend` may span lines.
`inLine` — inside an ordinary line, copying.  `inComment` — inside a
matched comment, deleting up to (excluding) the next newline. -/
inductive SMode : Type
  | lineStart (pend : List Char) : SMode
  | inLine : SMode
  | inComment : SMode

def starGo : SMode → List Char → List Char
  | SMode.lineStart pend, [] => pend.reverse
  | SMode.inLine, [] => []
  | SMode.inComment, [] => []
  | SMode.lineStart pend, c :: cs =>
      if c = '*' then starGo SMode.inComment cs
      else if isSpacePy c then starGo (SMode.lineStart (c :: pend)) cs
      else pend.reverse ++ c :: starGo SMode.inLine cs
  | SMode.inLine, c :: cs =>
      if c = '\n' then c :: starGo (SMode.lineStart []) cs
      else c :: starGo SMode.inLine cs
  | SMode.inComment, c :: cs =>
      if c = '\n' then c :: starGo (SMode.lineStart []) cs
      else starGo SMode.inComment cs

/-- `strip_full_line_star_comments` = `re.sub(r'(?m)^\s*\*.*$', '', s)`. -/
def strip_full_line_star_comments (s : List Char) : List Char :=
  starGo (SMode.lineStart []) s

/-- `cleaned_stmt`: star comments first, then inline quotes. -/
def cleaned_stmt (stmt : List Char) : List Char :=
  strip_inline_quotes (strip_full_line_star_comments stmt)

/-- Python `str.strip()` (ASCII whitespace fragment). -/
def pyStrip (s : List Char) : List Char :=
  ((s.dropWhile isSpacePy).reverse.dropWhile isSpacePy).reverse

/-- `is_entirely_commented`: `cleaned_stmt(stmt).strip() == ""`. -/
def is_entirely_commented (stmt : List Char) : Bool :=
  pyStrip (cleaned_stmt stmt) == []

-- ---------------------------------------------------------------------------
-- Regex search machinery
-- ---------------------------------------------------------------------------

/-- If `s` starts with `pat` case-insensitively (`pat` given in lower
case), return the rest of `s`. -/
def dropCI : List Char → List Char → Option (List Char)
  | [], s => some s
  | _ :: _, [] => none
  | p :: ps, c :: cs => if c.toLower = p then dropCI ps cs else none

/-- `\s+` followed by a (non-whitespace) literal: the greedy run is the
unique viable one, so consume a nonempty maximal whitespace run. -/
def afterWS : List Char → Option (List Char)
  | [] => none
  | c :: cs => if isSpacePy c then some (cs.dropWhile isSpacePy) else none

/-- `\b` at a position whose NEXT pattern character is a word character:
holds iff the previous character (if any) is a non-word character. -/
def noWordBefore : Option Char → Bool
  | none => true
  | some c => !isWordChar c

/-- `\b` at a position whose PREVIOUS character is a word character:
holds iff the suffix is empty or starts with a non-word character. -/
def wordBoundaryAfter : List Char → Bool
  | [] => true
  | c :: _ => !isWordChar c

/-- `re.search`: try the matcher at every position, tracking the
previous character for word-boundary tests. -/
def searchAux (m : Option Char → List Char → Bool) :
    Option Char → List Char → Bool
  | prev, [] => m prev []
  | prev, c :: cs => m prev (c :: cs) || searchAux m (some c) cs

def reSearch (m : Option Char → List Char → Bool) (s : List Char) : Bool :=
  searchAux m none s

/-- Remainder after `CODE\s+PAGE` (case-insensitive). -/
def cpCore (s : List Char) : Option (List Char) :=
  ((dropCI "code".toList s).bind afterWS).bind (dropCI "page".toList)

/-- Matcher of `\bCODE\s+PAGE\b` at one position. -/
def hasCpM (prev : Option Char) (s : List Char) : Bool :=
  noWordBefore prev &&
    (match cpCore s with
     | some r => wordBoundaryAfter r
     | none => false)

/-- `HAS_CODEPAGE.search`: `(?i)\bCODE\s+PAGE\b`. -/
def HAS_CODEPAGE (s : List Char) : Bool := reSearch hasCpM s

/-- Matcher of `\bCODE\s+PAGE\s+(CP1|CP2)\b` at one position. -/
def legacyM (prev : Option Char) (s : List Char) : Bool :=
  noWordBefore prev &&
    (match (cpCore s).bind afterWS with
     | some r =>
        (match dropCI "cp1".toList r with
         | some r2 => wordBoundaryAfter r2
         | none =>
            match dropCI "cp2".toList r with
            | some r2 => wordBoundaryAfter r2
            | none => false)
     | none => false)

/-- `LEGACY_CP.search`: `(?i)\bCODE\s+PAGE\s+(CP1|CP2)\b`. -/
def LEGACY_CP (s : List Char) : Bool := reSearch legacyM s

/-- Matcher of `\bFROM\s+CODE\s+PAGE\b` at one position. -/
def fromM (prev : Option Char) (s : List Char) : Bool :=
  noWordBefore prev &&
    (match ((dropCI "from".toList s).bind afterWS).bind cpCore with
     | some r => wordBoundaryAfter r
     | none => false)

/-- `FROM_CP.search`: `(?i)\bFROM\s+CODE\s+PAGE\b`. -/
def FROM_CP (s : List Char) : Bool := reSearch fromM s

/-- Matcher of `\bTO\s+CODE\s+PAGE\b` at one position. -/
def toM (prev : Option Char) (s : List Char) : Bool :=
  noWordBefore prev &&
    (match ((dropCI "to".toList s).bind afterWS).bind cpCore with
     | some r => wordBoundaryAfter r
     | none => false)

/-- `TO_CP.search`: `(?i)\bTO\s+CODE\s+PAGE\b`. -/
def TO_CP (s : List Char) : Bool := reSearch toM s

/-- `[0-9a-f]` under `(?i)`. -/
def isHexDigitCI (c : Char) : Bool :=
  c.isDigit || ('a' ≤ c.toLower && c.toLower ≤ 'f')

/-- Matcher of `\bx'[0-9a-f]+'\b` at one position.  The trailing `\b`
sits after the closing quote (a non-word character), so it requires a
word character immediately after the literal; at the end of the text it
fails. -/
def hexM (prev : Option Char) (s : List Char) : Bool :=
  noWordBefore prev &&
    (match s with
     | x :: q1 :: rest =>
        x.toLower == 'x' && q1 == sq &&
          (let digits := rest.takeWhile isHexDigitCI
           let r := rest.dropWhile isHexDigitCI
           !digits.isEmpty &&
             (match r with
              | q2 :: r2 =>
                 q2 == sq &&
                   (match r2 with
                    | c :: _ => isWordChar c
                    | [] => false)
              | [] => false))
     | _ => false)

/-- `HEX_LITERAL.search`: `(?i)\bx'[0-9a-f]+'\b`. -/
def HEX_LITERAL (s : List Char) : Bool := reSearch hexM s

/-- Matcher of `\b(lx_|xstr|xstring)\w*\b` at one position.  After one
of the alternatives, greedy `\w*` runs to the end of the word-character
run, where the final `\b` always holds, so only the prefix and the
leading boundary matter. -/
def xvarM (prev : Option Char) (s : List Char) : Bool :=
  noWordBefore prev &&
    ((dropCI "lx_".toList s).isSome ||
     (dropCI "xstr".toList s).isSome ||
     (dropCI "xstring".toList s).isSome)

/-- `LIKELY_XVAR.search`: `(?i)\b(lx_|xstr|xstring)\w*\b`. -/
def LIKELY_XVAR (s : List Char) : Bool := reSearch xvarM s

-- ---------------------------------------------------------------------------
-- Statement extraction: `STMT_RE = (?is)\bTRANSLATE\b[^.]*\.` + `finditer`
-- ---------------------------------------------------------------------------

def kwTranslate : List Char := "translate".toList

/-- Does `s` start with `pat` case-insensitively? -/
def startsWithCI (pat s : List Char) : Bool :=
  (dropCI pat s).isSome

/-- `\b` immediately before the keyword at offset `i`. -/
def boundaryBefore (s : List Char) (i : Nat) : Bool :=
  i == 0 || !isWordChar (s.getD (i - 1) ' ')

/-- `\b` at offset `j` when the previous character is a word character:
holds at the end of the text or before a non-word character. -/
def boundaryAt (s : List Char) (j : Nat) : Bool :=
  !isWordChar (s.getD j ' ')

/-- Index of the first `'.'` in `l`. -/
def firstDot : List Char → Option Nat
  | [] => none
  | c :: cs => if c = '.' then some 0 else (firstDot cs).map (· + 1)

/-- Try `STMT_RE` at offset `i`: keyword with word boundaries, then
`[^.]*\.` runs to (and includes) the first period at or after `i + 9`;
with no period, no match.  Returns the end offset (exclusive). -/
def matchAt (s : List Char) (i : Nat) : Option Nat :=
  if boundaryBefore s i && startsWithCI kwTranslate (s.drop i) &&
      boundaryAt s (i + 9) then
    match firstDot (s.drop (i + 9)) with
    | some k => some (i + 9 + k + 1)
    | none => none
  else none

/-- `finditer`: try each offset left to right; after a match resume at
its end offset.  Fuel bounds the number of steps (each step advances the
offset by at least one, so `s.length + 1` is enough). -/
def scanFrom (s : List Char) : Nat → Nat → List (Nat × Nat)
  | _, 0 => []
  | i, fuel + 1 =>
    if i < s.length then
      match matchAt s i with
      | some e => (i, e) :: scanFrom s e fuel
      | none => scanFrom s (i + 1) fuel
    else []

/-- All statement spans of a unit body, in discovery order. -/
def extract (s : List Char) : List (Nat × Nat) :=
  scanFrom s 0 (s.length + 1)

-- ---------------------------------------------------------------------------
-- Data model and unit scanner
-- ---------------------------------------------------------------------------

structure Unit where
  pgm_name : String
  inc_name : String
  type : String
  name : Option String := some ""
  start_line : Option Int := some 0
  end_line : Option Int := some 0
  code : Option (List Char) := some []
deriving DecidableEq

/-- One finding.  The static `message`/`suggestion` strings of the
source (constant per issue type) are not modelled; no claim mentions
them. -/
structure Finding where
  pgm_name : String
  inc_name : String
  type : String
  name : Option String
  start_line : Option Int
  end_line : Option Int
  issue_type : String
  severity : String
  line : Nat
  snippet : List Char
deriving DecidableEq

def mkFinding (u : Unit) (src : List Char) (st en : Nat)
    (issue sev : String) : Finding :=
  { pgm_name := u.pgm_name, inc_name := u.inc_name, type := u.type,
    name := u.name, start_line := u.start_line, end_line := u.end_line,
    issue_type := issue, severity := sev,
    line := line_of_offset src st, snippet := snippet_at src st en }

/-- The four independent checks of `scan_unit`, in source order. -/
def classify (u : Unit) (src : List Char) (st en : Nat)
    (stmt : List Char) : List Finding :=
  (if HAS_CODEPAGE stmt then
    [mkFinding u src st en "TranslateObsoleteCodepage" "warning"] else []) ++
  (if LEGACY_CP stmt then
    [mkFinding u src st en "TranslateLegacyCp1Cp2" "warning"] else []) ++
  (if HAS_CODEPAGE stmt && !(FROM_CP stmt || TO_CP stmt) then
    [mkFinding u src st en "TranslateMissingFromTo" "info"] else []) ++
  (if HEX_LITERAL stmt || LIKELY_XVAR stmt then
    [mkFinding u src st en "TranslateNonCharacterRisk" "info"] else [])

/-- Findings contributed by one extracted span (the loop body of
`scan_unit`): fully commented spans are discarded, otherwise the
comment-free text is classified. -/
def stmtFindings (u : Unit) (src : List Char) (sp : Nat × Nat) :
    List Finding :=
  let stmt_raw := pySlice src sp.1 sp.2
  if is_entirely_commented stmt_raw then []
  else classify u src sp.1 sp.2 (cleaned_stmt stmt_raw)

/-- `scan_unit`: `src = unit.code or ""`, then the loop over
`STMT_RE.finditer(src)`. -/
def scan_unit (u : Unit) : List Finding :=
  let src := u.code.getD []
  (extract src).flatMap (stmtFindings u src)

-- ---------------------------------------------------------------------------
-- Concrete scenario data (used by the spec's example scenarios and witnesses)
-- ---------------------------------------------------------------------------

def mkUnit (body : List Char) : Unit :=
  { pgm_name := "ZPROG", inc_name := "ZINC", type := "PROG",
    name := some "", start_line := some 0, end_line := some 0,
    code := some body }

def bodyC1 : List Char := "TRANSLATE lv_a CODE PAGE z1.".toList

def uC1 : Unit := mkUnit bodyC1

/-- Body `TRANSLATE lv_x FROM CODE PAGE 'UTF-8' TO CODE PAGE 'UTF-16'.`
(single quotes written via `sq`). -/
def bodyC2 : List Char :=
  "TRANSLATE lv_x FROM CODE PAGE ".toList ++ [sq] ++ "UTF-8".toList ++ [sq] ++
  " TO CODE PAGE ".toList ++ [sq] ++ "UTF-16".toList ++ [sq] ++ ".".toList

def uC2 : Unit := mkUnit bodyC2

def bodyC3 : List Char := "* comment\nTRANSLATE lv_x CODE PAGE CP1.".toList

def uC3 : Unit := mkUnit bodyC3

/-- Body `TRANSLATE lv_x USING X'1A2B'.`. -/
def bodyC4 : List Char :=
  "TRANSLATE lv_x USING X".toList ++ [sq] ++ "1A2B".toList ++ [sq] ++ ".".toList

def uC4 : Unit := mkUnit bodyC4

def bodyC10 : List Char := "TRANSLATE lx_buf.".toList

def uC10 : Unit := mkUnit bodyC10

def srcC5 : List Char := "* TRANSLATE lv_x CODE PAGE CP1.".toList

def uC5 : Unit := mkUnit srcC5

def bodyC6 : List Char := "TRANSLATE a.".toList

def uC7 : Unit :=
  { pgm_name := "ZPROG", inc_name := "ZINC", type := "PROG",
    name := some "", start_line := some 0, end_line := some 0, code := none }

/-- Newlines held in the pending buffer of a `starGo` state. -/
def pendNl : SMode → Nat
  | SMode.lineStart p => p.count '\n'
  | SMode.inLine => 0
  | SMode.inComment => 0

-- ---------------------------------------------------------------------------
-- Helper lemmas
-- ---------------------------------------------------------------------------

theorem escNl_no_newline : ∀ l : List Char, '\n' ∉ escNl l := by
  intro l
  induction l with
  | nil => simp [escNl]
  | cons c cs ih =>
    by_cases hc : c = '\n'
    · subst hc
      simp only [escNl, if_pos rfl]
      intro hmem
      rcases List.mem_cons.mp hmem with h | h
      · exact absurd h (by decide)
      · rcases List.mem_cons.mp h with h2 | h2
        · exact absurd h2 (by decide)
        · exact ih h2
    · simp only [escNl, if_neg hc]
      intro hmem
      rcases List.mem_cons.mp hmem with h | h
      · exact hc h.symm
      · exact ih h

@[simp] theorem mkFinding_issue_type (u : Unit) (src : List Char)
    (st en : Nat) (issue sev : String) :
    (mkFinding u src st en issue sev).issue_type = issue := rfl

@[simp] theorem mkFinding_severity (u : Unit) (src : List Char)
    (st en : Nat) (issue sev : String) :
    (mkFinding u src st en issue sev).severity = sev := rfl

@[simp] theorem mkFinding_line (u : Unit) (src : List Char)
    (st en : Nat) (issue sev : String) :
    (mkFinding u src st en issue sev).line = line_of_offset src st := rfl

@[simp] theorem mkFinding_snippet (u : Unit) (src : List Char)
    (st en : Nat) (issue sev : String) :
    (mkFinding u src st en issue sev).snippet = snippet_at src st en := rfl

theorem count_nl_cons (c : Char) (cs : List Char) :
    List.count '\n' (c :: cs) =
      List.count '\n' cs + (if c = '\n' then 1 else 0) := by
  rw [List.count_cons]
  by_cases hnl : c = '\n' <;> simp [hnl]

theorem starGo_count :
    ∀ (l : List Char) (m : SMode),
      List.count '\n' (starGo m l) ≤ pendNl m + List.count '\n' l := by
  intro l
  induction l with
  | nil =>
    intro m
    cases m with
    | lineStart p =>
      have e1 : starGo (SMode.lineStart p) [] = p.reverse := rfl
      rw [e1, List.count_reverse]
      simp [pendNl]
    | inLine => simp [starGo, pendNl]
    | inComment => simp [starGo, pendNl]
  | cons c cs ih =>
    intro m
    cases m with
    | lineStart p =>
      by_cases hstar : c = '*'
      · have e1 : starGo (SMode.lineStart p) (c :: cs) =
            starGo SMode.inComment cs := by
          simp [starGo, hstar]
        have h1 := ih SMode.inComment
        rw [e1, count_nl_cons]
        simp only [pendNl] at h1 ⊢
        omega
      · by_cases hsp : isSpacePy c = true
        · have e1 : starGo (SMode.lineStart p) (c :: cs) =
              starGo (SMode.lineStart (c :: p)) cs := by
            simp [starGo, hstar, hsp]
          have h1 := ih (SMode.lineStart (c :: p))
          rw [e1, count_nl_cons]
          simp only [pendNl, count_nl_cons] at h1 ⊢
          omega
        · have e1 : starGo (SMode.lineStart p) (c :: cs) =
              p.reverse ++ c :: starGo SMode.inLine cs := by
            simp [starGo, hstar, hsp]
          have h1 := ih SMode.inLine
          have hnl : ¬c = '\n' := by
            intro h; apply hsp; rw [h]; decide
          rw [e1, List.count_append, List.count_reverse, count_nl_cons,
            count_nl_cons]
          simp only [pendNl, if_neg hnl] at h1 ⊢
          omega
    | inLine =>
      by_cases hnl : c = '\n'
      · have e1 : starGo SMode.inLine (c :: cs) =
            c :: starGo (SMode.lineStart []) cs := by
          simp [starGo, hnl]
        have h1 := ih (SMode.lineStart [])
        rw [e1, count_nl_cons, count_nl_cons]
        simp only [pendNl, List.count_nil] at h1 ⊢
        omega
      · have e1 : starGo SMode.inLine (c :: cs) =
            c :: starGo SMode.inLine cs := by
          simp [starGo, hnl]
        have h1 := ih SMode.inLine
        rw [e1, count_nl_cons, count_nl_cons]
        simp only [pendNl] at h1 ⊢
        omega
    | inComment =>
      by_cases hnl : c = '\n'
      · have e1 : starGo SMode.inComment (c :: cs) =
            c :: starGo (SMode.lineStart []) cs := by
          simp [starGo, hnl]
        have h1 := ih (SMode.lineStart [])
        rw [e1, count_nl_cons, count_nl_cons]
        simp only [pendNl, List.count_nil] at h1 ⊢
        omega
      · have e1 : starGo SMode.inComment (c :: cs) =
            starGo SMode.inComment cs := by
          simp [starGo, hnl]
        have h1 := ih SMode.inComment
        rw [e1, count_nl_cons]
        simp only [pendNl] at h1 ⊢
        omega

theorem searchAux_mono {m1 m2 : Option Char → List Char → Bool}
    (h : ∀ p t, m1 p t = true → m2 p t = true) :
    ∀ (prev : Option Char) (s : List Char),
      searchAux m1 prev s = true → searchAux m2 prev s = true := by
  intro prev s
  induction s generalizing prev with
  | nil =>
    intro hs
    exact h prev [] hs
  | cons c cs ih =>
    intro hs
    rcases Bool.or_eq_true_iff.mp hs with h1 | h1
    · exact Bool.or_eq_true_iff.mpr (Or.inl (h prev _ h1))
    · exact Bool.or_eq_true_iff.mpr (Or.inr (ih (some c) h1))

theorem isSpacePy_not_word {c : Char} (h : isSpacePy c = true) :
    isWordChar c = false := by
  simp only [isSpacePy, Bool.or_eq_true, beq_iff_eq] at h
  rcases h with ((((h | h) | h) | h) | h) | h <;> subst h <;> decide

theorem afterWS_some {l r : List Char} (h : afterWS l = some r) :
    ∃ c cs, l = c :: cs ∧ isSpacePy c = true := by
  cases l with
  | nil => simp [afterWS] at h
  | cons c cs =>
    by_cases hc : isSpacePy c = true
    · exact ⟨c, cs, rfl, hc⟩
    · simp [afterWS, hc] at h

theorem legacyM_imp_hasCpM :
    ∀ p t, legacyM p t = true → hasCpM p t = true := by
  intro p t h
  unfold legacyM at h
  unfold hasCpM
  rw [Bool.and_eq_true] at h ⊢
  refine ⟨h.1, ?_⟩
  have h2 := h.2
  cases hc : cpCore t with
  | none => simp [hc] at h2
  | some r0 =>
    rw [hc, Option.some_bind] at h2
    cases ha : afterWS r0 with
    | none => rw [ha] at h2; simp at h2
    | some r =>
      obtain ⟨c, cs, hr0, hcs⟩ := afterWS_some ha
      rw [hr0]
      show wordBoundaryAfter (c :: cs) = true
      simp only [wordBoundaryAfter, isSpacePy_not_word hcs]
      rfl

theorem legacy_imp_hasCp {s : List Char} (h : LEGACY_CP s = true) :
    HAS_CODEPAGE s = true :=
  searchAux_mono legacyM_imp_hasCpM none s h

theorem mem_if_singleton {b : Prop} [Decidable b] {x f : Finding} :
    (f ∈ if b then [x] else ([] : List Finding)) ↔ b ∧ f = x := by
  by_cases hb : b <;> simp [hb]

theorem mem_classify_obsolete (u : Unit) (src : List Char) (st en : Nat)
    {stmt : List Char} (h : HAS_CODEPAGE stmt = true) :
    mkFinding u src st en "TranslateObsoleteCodepage" "warning" ∈
      classify u src st en stmt := by
  unfold classify
  rw [if_pos h]
  simp

theorem mem_classify_legacy (u : Unit) (src : List Char) (st en : Nat)
    {stmt : List Char} (h : LEGACY_CP stmt = true) :
    mkFinding u src st en "TranslateLegacyCp1Cp2" "warning" ∈
      classify u src st en stmt := by
  unfold classify
  rw [if_pos h]
  simp

theorem mem_classify_nonchar (u : Unit) (src : List Char) (st en : Nat)
    {stmt : List Char} (h : (HEX_LITERAL stmt || LIKELY_XVAR stmt) = true) :
    mkFinding u src st en "TranslateNonCharacterRisk" "info" ∈
      classify u src st en stmt := by
  unfold classify
  rw [if_pos h]
  simp

theorem classify_missing_iff (u : Unit) (src : List Char) (st en : Nat)
    (stmt : List Char) :
    (∃ f ∈ classify u src st en stmt,
        f.issue_type = "TranslateMissingFromTo" ∧ f.severity = "info") ↔
      (HAS_CODEPAGE stmt = true ∧ FROM_CP stmt = false ∧
        TO_CP stmt = false) := by
  constructor
  · rintro ⟨f, hf, hissue, hsev⟩
    simp only [classify, List.mem_append, mem_if_singleton] at hf
    rcases hf with ((⟨hb, rfl⟩ | ⟨hb, rfl⟩) | ⟨hb, rfl⟩) | ⟨hb, rfl⟩
    · exact absurd hissue (by simp [mkFinding])
    · exact absurd hissue (by simp [mkFinding])
    · rw [Bool.and_eq_true, Bool.not_eq_true', Bool.or_eq_false_iff] at hb
      exact ⟨hb.1, hb.2.1, hb.2.2⟩
    · exact absurd hissue (by simp [mkFinding])
  · rintro ⟨h1, h2, h3⟩
    refine ⟨mkFinding u src st en "TranslateMissingFromTo" "info",
      ?_, rfl, rfl⟩
    unfold classify
    rw [if_pos (by rw [h1, h2, h3]; rfl :
      (HAS_CODEPAGE stmt && !(FROM_CP stmt || TO_CP stmt)) = true)]
    simp

theorem stmtFindings_not_commented (u : Unit) (src : List Char)
    (sp : Nat × Nat)
    (h : is_entirely_commented (pySlice src sp.1 sp.2) = false) :
    stmtFindings u src sp =
      classify u src sp.1 sp.2 (cleaned_stmt (pySlice src sp.1 sp.2)) := by
  simp [stmtFindings, h]

theorem mem_scan_of_mem_stmt {u : Unit} {src : List Char} {sp : Nat × Nat}
    (hc : u.code = some src) (hm : sp ∈ extract src) {f : Finding}
    (hf : f ∈ stmtFindings u src sp) : f ∈ scan_unit u := by
  unfold scan_unit
  rw [hc]
  exact List.mem_flatMap.mpr ⟨sp, hm, hf⟩

theorem firstDot_some :
    ∀ {l : List Char} {k : Nat}, firstDot l = some k →
      k < l.length ∧ l.getD k ' ' = '.' ∧
        ∀ j, j < k → l.getD j ' ' ≠ '.' := by
  intro l
  induction l with
  | nil => intro k h; simp [firstDot] at h
  | cons c cs ih =>
    intro k h
    by_cases hc : c = '.'
    · rw [firstDot, if_pos hc] at h
      cases h
      refine ⟨Nat.succ_pos _, by simpa using hc, ?_⟩
      intro j hj
      exact absurd hj (Nat.not_lt_zero _)
    · rw [firstDot, if_neg hc] at h
      rcases Option.map_eq_some'.mp h with ⟨k', hk', rfl⟩
      obtain ⟨h1, h2, h3⟩ := ih hk'
      refine ⟨Nat.succ_lt_succ h1, by simpa using h2, ?_⟩
      intro j hj
      cases j with
      | zero => simpa using hc
      | succ j' =>
        rw [List.getD_cons_succ]
        exact h3 j' (Nat.lt_of_succ_lt_succ hj)

theorem startsWithCI_spec :
    ∀ {p l : List Char}, startsWithCI p l = true →
      p.length ≤ l.length ∧
        ∀ idx, idx < p.length → (l.getD idx ' ').toLower = p.getD idx ' ' := by
  intro p
  induction p with
  | nil =>
    intro l _
    exact ⟨Nat.zero_le _, fun idx h => absurd h (Nat.not_lt_zero _)⟩
  | cons a ps ih =>
    intro l h
    cases l with
    | nil => simp [startsWithCI, dropCI] at h
    | cons c cs =>
      by_cases hca : c.toLower = a
      · rw [startsWithCI] at h
        rw [show dropCI (a :: ps) (c :: cs) = dropCI ps cs from by
          simp [dropCI, hca]] at h
        obtain ⟨h1, h2⟩ := ih h
        refine ⟨Nat.succ_le_succ h1, ?_⟩
        intro idx hidx
        cases idx with
        | zero => simpa using hca
        | succ i =>
          rw [List.getD_cons_succ, List.getD_cons_succ]
          exact h2 i (Nat.lt_of_succ_lt_succ hidx)
      · rw [startsWithCI] at h
        rw [show dropCI (a :: ps) (c :: cs) = none from by
          simp [dropCI, hca]] at h
        simp at h

theorem matchAt_some :
    ∀ {s : List Char} {i e : Nat}, matchAt s i = some e →
      boundaryBefore s i = true ∧
      startsWithCI kwTranslate (s.drop i) = true ∧
      boundaryAt s (i + 9) = true ∧
      ∃ k, firstDot (s.drop (i + 9)) = some k ∧ e = i + 9 + k + 1 := by
  intro s i e h
  unfold matchAt at h
  by_cases hcond : (boundaryBefore s i && startsWithCI kwTranslate (s.drop i)
      && boundaryAt s (i + 9)) = true
  · rw [if_pos hcond] at h
    rw [Bool.and_eq_true, Bool.and_eq_true] at hcond
    cases hfd : firstDot (s.drop (i + 9)) with
    | none => rw [hfd] at h; cases h
    | some k =>
      rw [hfd] at h
      cases h
      exact ⟨hcond.1.1, hcond.1.2, hcond.2, k, rfl, rfl⟩
  · rw [if_neg hcond] at h
    cases h

theorem getD_drop (s : List Char) (n m : Nat) :
    (s.drop n).getD m ' ' = s.getD (n + m) ' ' := by
  rw [List.getD_eq_getElem?_getD, List.getD_eq_getElem?_getD,
    List.getElem?_drop]

theorem kwTranslate_no_dot :
    ∀ idx, idx < kwTranslate.length → kwTranslate.getD idx ' ' ≠ '.' := by
  decide

theorem matchAt_props {s : List Char} {i e : Nat}
    (h : matchAt s i = some e) :
    i + 9 < e ∧ e ≤ s.length ∧ s.getD (e - 1) ' ' = '.' ∧
      ∀ j, i ≤ j → j < e - 1 → s.getD j ' ' ≠ '.' := by
  obtain ⟨hb, hkw, hba, k, hfd, rfl⟩ := matchAt_some h
  obtain ⟨hklt, hkdot, hkno⟩ := firstDot_some hfd
  rw [List.length_drop] at hklt
  obtain ⟨hkwlen, hkwchar⟩ := startsWithCI_spec hkw
  rw [List.length_drop] at hkwlen
  have hkw9 : kwTranslate.length = 9 := by decide
  rw [hkw9] at hkwlen hkwchar
  have hilen : i + 9 ≤ s.length := by omega
  refine ⟨by omega, by omega, ?_, ?_⟩
  · have : i + 9 + k + 1 - 1 = i + 9 + k := by omega
    rw [this, ← getD_drop]
    exact hkdot
  · intro j hj1 hj2 hdot
    by_cases hj9 : j < i + 9
    · have hidx : j - i < 9 := by omega
      have := hkwchar (j - i) hidx
      rw [getD_drop] at this
      have hji : i + (j - i) = j := by omega
      rw [hji, hdot] at this
      exact kwTranslate_no_dot (j - i) (by rw [hkw9]; exact hidx)
        (by rw [← this]; decide)
    · have hj' : j - (i + 9) < k := by omega
      have := hkno (j - (i + 9)) hj'
      rw [getD_drop] at this
      have hji : i + 9 + (j - (i + 9)) = j := by omega
      rw [hji] at this
      exact this hdot

theorem scanFrom_mem :
    ∀ {fuel : Nat} {s : List Char} {i : Nat} {sp : Nat × Nat},
      sp ∈ scanFrom s i fuel → i ≤ sp.1 ∧ matchAt s sp.1 = some sp.2 := by
  intro fuel
  induction fuel with
  | zero => intro s i sp h; simp [scanFrom] at h
  | succ n ih =>
    intro s i sp h
    rw [scanFrom] at h
    by_cases hlt : i < s.length
    · rw [if_pos hlt] at h
      cases hma : matchAt s i with
      | some e =>
        rw [hma] at h
        rcases List.mem_cons.mp h with heq | h2
        · rw [heq]
          exact ⟨Nat.le_refl _, hma⟩
        · obtain ⟨hle, hm2⟩ := ih h2
          have he : i + 9 < e := (matchAt_props hma).1
          exact ⟨by omega, hm2⟩
      | none =>
        rw [hma] at h
        obtain ⟨hle, hm2⟩ := ih h
        exact ⟨by omega, hm2⟩
    · rw [if_neg hlt] at h
      simp at h

theorem scanFrom_pairwise :
    ∀ {fuel : Nat} {s : List Char} {i : Nat},
      List.Pairwise (fun a b : Nat × Nat => a.2 ≤ b.1)
        (scanFrom s i fuel) := by
  intro fuel
  induction fuel with
  | zero => intro s i; simp [scanFrom]
  | succ n ih =>
    intro s i
    rw [scanFrom]
    by_cases hlt : i < s.length
    · rw [if_pos hlt]
      cases hma : matchAt s i with
      | some e =>
        rw [List.pairwise_cons]
        refine ⟨?_, ih⟩
        intro b hb
        exact (scanFrom_mem hb).1
      | none => exact ih
    · rw [if_neg hlt]
      exact List.Pairwise.nil

-- ---------------------------------------------------------------------------
-- Claims
-- ---------------------------------------------------------------------------

/-- Claim C1: every extracted, non-discarded statement whose
comment-stripped text contains the two-word phrase CODE PAGE
(case-insensitive, whitespace-flexible, at word boundaries, i.e. the
`HAS_CODEPAGE` pattern) yields at least one finding with issue type
`TranslateObsoleteCodepage` and severity `warning` for that statement. -/
theorem c1_codepage_always_flagged (u : Unit) (src : List Char)
    (sp : Nat × Nat) (hc : u.code = some src) (hm : sp ∈ extract src)
    (hnc : is_entirely_commented (pySlice src sp.1 sp.2) = false)
    (hcp : HAS_CODEPAGE (cleaned_stmt (pySlice src sp.1 sp.2)) = true) :
    ∃ f ∈ scan_unit u, f.issue_type = "TranslateObsoleteCodepage" ∧
      f.severity = "warning" ∧ f.line = line_of_offset src sp.1 ∧
      f.snippet = snippet_at src sp.1 sp.2 := by
  refine ⟨mkFinding u src sp.1 sp.2 "TranslateObsoleteCodepage" "warning",
    ?_, rfl, rfl, rfl, rfl⟩
  apply mem_scan_of_mem_stmt hc hm
  rw [stmtFindings_not_commented u src sp hnc]
  exact mem_classify_obsolete u src sp.1 sp.2 hcp

theorem c1_witness :
    ∃ f ∈ scan_unit uC1, f.issue_type = "TranslateObsoleteCodepage" ∧
      f.severity = "warning" ∧ f.line = line_of_offset bodyC1 0 ∧
      f.snippet = snippet_at bodyC1 0 28 :=
  c1_codepage_always_flagged uC1 bodyC1 (0, 28) rfl (by decide)
    (by decide) (by decide)

/-- Claim C2: for every extracted, non-discarded statement a
`TranslateMissingFromTo` (info) finding is produced iff the
comment-stripped text contains CODE PAGE and contains neither
FROM CODE PAGE nor TO CODE PAGE; and for the body
`TRANSLATE lv_x FROM CODE PAGE 'UTF-8' TO CODE PAGE 'UTF-16'.` exactly
one finding is produced: `TranslateObsoleteCodepage` (warning). -/
theorem c2_missing_fromto_iff (u : Unit) (src : List Char)
    (sp : Nat × Nat) (hc : u.code = some src) (hm : sp ∈ extract src)
    (hnc : is_entirely_commented (pySlice src sp.1 sp.2) = false) :
    ((∃ f ∈ stmtFindings u src sp,
        f.issue_type = "TranslateMissingFromTo" ∧ f.severity = "info") ↔
      (HAS_CODEPAGE (cleaned_stmt (pySlice src sp.1 sp.2)) = true ∧
       FROM_CP (cleaned_stmt (pySlice src sp.1 sp.2)) = false ∧
       TO_CP (cleaned_stmt (pySlice src sp.1 sp.2)) = false)) ∧
    (∀ f ∈ stmtFindings u src sp, f ∈ scan_unit u) ∧
    (scan_unit uC2).length = 1 ∧
    (scan_unit uC2).map Finding.issue_type = ["TranslateObsoleteCodepage"] ∧
    (scan_unit uC2).map Finding.severity = ["warning"] := by
  refine ⟨?_, ?_, by decide, by decide, by decide⟩
  · rw [stmtFindings_not_commented u src sp hnc]
    exact classify_missing_iff u src sp.1 sp.2 _
  · intro f hf
    exact mem_scan_of_mem_stmt hc hm hf

theorem c2_witness :
    (scan_unit uC2).length = 1 ∧
    (scan_unit uC2).map Finding.issue_type = ["TranslateObsoleteCodepage"] ∧
    (scan_unit uC2).map Finding.severity = ["warning"] :=
  (c2_missing_fromto_iff uC2 bodyC2 (0, 60) rfl (by decide)
    (by decide)).2.2

/-- Claim C3: for the body `* comment` newline
`TRANSLATE lv_x CODE PAGE CP1.` the scan extracts one statement and
produces exactly the three findings `TranslateObsoleteCodepage`,
`TranslateLegacyCp1Cp2`, `TranslateMissingFromTo` in that order; and in
general every extracted, non-discarded statement matching the legacy
CODE PAGE CP1/CP2 pattern yields both the obsolete-codepage and the
legacy findings. -/
theorem c3_legacy_pages (s : List Char) :
    ((extract bodyC3).length = 1 ∧
     (scan_unit uC3).map Finding.issue_type =
       ["TranslateObsoleteCodepage", "TranslateLegacyCp1Cp2",
        "TranslateMissingFromTo"] ∧
     (scan_unit uC3).map Finding.severity =
       ["warning", "warning", "info"]) ∧
    (∀ (u : Unit) (sp : Nat × Nat), u.code = some s → sp ∈ extract s →
      is_entirely_commented (pySlice s sp.1 sp.2) = false →
      LEGACY_CP (cleaned_stmt (pySlice s sp.1 sp.2)) = true →
      (∃ f ∈ scan_unit u, f.issue_type = "TranslateObsoleteCodepage" ∧
        f.severity = "warning" ∧ f.line = line_of_offset s sp.1) ∧
      (∃ f ∈ scan_unit u, f.issue_type = "TranslateLegacyCp1Cp2" ∧
        f.severity = "warning" ∧ f.line = line_of_offset s sp.1)) := by
  refine ⟨⟨by decide, by decide, by decide⟩, ?_⟩
  intro u sp hc hm hnc hleg
  have hcp : HAS_CODEPAGE (cleaned_stmt (pySlice s sp.1 sp.2)) = true :=
    legacy_imp_hasCp hleg
  constructor
  · refine ⟨mkFinding u s sp.1 sp.2 "TranslateObsoleteCodepage" "warning",
      ?_, rfl, rfl, rfl⟩
    apply mem_scan_of_mem_stmt hc hm
    rw [stmtFindings_not_commented u s sp hnc]
    exact mem_classify_obsolete u s sp.1 sp.2 hcp
  · refine ⟨mkFinding u s sp.1 sp.2 "TranslateLegacyCp1Cp2" "warning",
      ?_, rfl, rfl, rfl⟩
    apply mem_scan_of_mem_stmt hc hm
    rw [stmtFindings_not_commented u s sp hnc]
    exact mem_classify_legacy u s sp.1 sp.2 hleg

theorem c3_witness :
    (∃ f ∈ scan_unit uC3, f.issue_type = "TranslateObsoleteCodepage" ∧
      f.severity = "warning" ∧ f.line = line_of_offset bodyC3 10) ∧
    (∃ f ∈ scan_unit uC3, f.issue_type = "TranslateLegacyCp1Cp2" ∧
      f.severity = "warning" ∧ f.line = line_of_offset bodyC3 10) :=
  (c3_legacy_pages bodyC3).2 uC3 (10, 39) rfl (by decide) (by decide)
    (by decide)

/-- Claim C4 evaluation: the body `TRANSLATE lv_x USING X'1A2B'.` is
extracted as one non-discarded statement whose cleaned text contains no
CODE PAGE phrase, yet `HEX_LITERAL` does not match (the pattern's final
word boundary sits after the closing quote and demands a word character
there), so the scan produces zero findings — not the single
`TranslateNonCharacterRisk` finding the claim requires. -/
theorem c4_hex_statement_unflagged :
    extract bodyC4 = [(0, 29)] ∧
    is_entirely_commented (pySlice bodyC4 0 29) = false ∧
    HAS_CODEPAGE (cleaned_stmt (pySlice bodyC4 0 29)) = false ∧
    HEX_LITERAL (cleaned_stmt (pySlice bodyC4 0 29)) = false ∧
    LIKELY_XVAR (cleaned_stmt (pySlice bodyC4 0 29)) = false ∧
    scan_unit uC4 = [] := by decide

/-- Claim C5: an extracted span whose raw text is entirely comments
(empty after stripping, up to whitespace) is discarded before
classification and contributes no findings, whatever the comments
contain. -/
theorem c5_fully_commented_discarded (u : Unit) (src : List Char)
    (sp : Nat × Nat)
    (h : is_entirely_commented (pySlice src sp.1 sp.2) = true) :
    stmtFindings u src sp = [] := by
  simp [stmtFindings, h]

theorem c5_witness : stmtFindings uC5 srcC5 (0, 31) = [] :=
  c5_fully_commented_discarded uC5 srcC5 (0, 31) (by decide)

/-- Claim C6: every span emitted by the extractor begins at a
case-insensitive whole-word occurrence of TRANSLATE, ends at (and
includes) the first period after the keyword, stays within the text;
spans are pairwise non-overlapping and emitted in strictly increasing
start order; and a keyword occurrence with no period before the end of
the text yields no span. -/
theorem c6_extractor_invariants (s : List Char) :
    (∀ sp ∈ extract s,
        boundaryBefore s sp.1 = true ∧
        startsWithCI kwTranslate (s.drop sp.1) = true ∧
        boundaryAt s (sp.1 + 9) = true ∧
        sp.1 < sp.2 ∧ sp.2 ≤ s.length ∧
        s.getD (sp.2 - 1) ' ' = '.' ∧
        ∀ j, sp.1 ≤ j → j < sp.2 - 1 → s.getD j ' ' ≠ '.') ∧
    List.Pairwise (fun a b : Nat × Nat => a.1 < b.1 ∧ a.2 ≤ b.1)
      (extract s) ∧
    (∀ i, firstDot (s.drop (i + 9)) = none →
      ∀ sp ∈ extract s, sp.1 ≠ i) := by
  refine ⟨?_, ?_, ?_⟩
  · intro sp hsp
    have hsp' : sp ∈ scanFrom s 0 (s.length + 1) := hsp
    have hma := (scanFrom_mem hsp').2
    obtain ⟨hb, hkw, hba, _⟩ := matchAt_some hma
    obtain ⟨h1, h2, h3, h4⟩ := matchAt_props hma
    exact ⟨hb, hkw, hba, by omega, h2, h3, h4⟩
  · show List.Pairwise _ (scanFrom s 0 (s.length + 1))
    refine List.Pairwise.imp_of_mem ?_ scanFrom_pairwise
    intro a b ha hb hab
    have h1 := (matchAt_props (scanFrom_mem ha).2).1
    exact ⟨by omega, hab⟩
  · intro i hnone sp hsp heq
    have hsp' : sp ∈ scanFrom s 0 (s.length + 1) := hsp
    have hma := (scanFrom_mem hsp').2
    rw [heq] at hma
    obtain ⟨_, _, _, k, hfd, _⟩ := matchAt_some hma
    rw [hnone] at hfd
    cases hfd

theorem c6_witness :
    boundaryBefore bodyC6 0 = true ∧
    startsWithCI kwTranslate (bodyC6.drop 0) = true ∧
    bodyC6.getD 11 ' ' = '.' := by
  have h := (c6_extractor_invariants bodyC6).1 (0, 12) (by decide)
  exact ⟨h.1, h.2.1, h.2.2.2.2.2.1⟩

/-- Claim C7: a unit with absent or empty body text yields zero
statements and zero findings, as a normal (total) result. -/
theorem c7_empty_body (u : Unit)
    (h : u.code = none ∨ u.code = some []) :
    extract (u.code.getD []) = [] ∧ scan_unit u = [] := by
  rcases h with h | h <;>
    exact ⟨by rw [h]; rfl, by unfold scan_unit; rw [h]; rfl⟩

theorem c7_witness :
    extract (uC7.code.getD []) = [] ∧ scan_unit uC7 = [] :=
  c7_empty_body uC7 (Or.inl rfl)

/-- Claim C8 counterexample: on the two-character input newline-star,
the full-line comment pass returns the empty string, deleting the
newline — the output does not have the same newline count as the
input. -/
theorem c8_counterexample :
    ¬ (List.count '\n' (strip_full_line_star_comments ['\n', '*']) =
        List.count '\n' (['\n', '*'] : List Char)) := by decide

/-- Claim C8 (amended): the full-line comment pass never increases the
newline count; a comment line's content is deleted in place, but the
pattern's leading whitespace may absorb the newlines of immediately
preceding whitespace-only lines, so the count can decrease. -/
theorem c8_newline_count_monotone (s : List Char) :
    List.count '\n' (strip_full_line_star_comments s) ≤
      List.count '\n' s := by
  have h := starGo_count s (SMode.lineStart [])
  simpa [strip_full_line_star_comments, pendNl] using h

/-- Claim C9: `snippet_at` returns exactly the window
`[max(0, start-60), min(len(text), end+60)]` of the text with each
newline replaced by the two characters backslash-n; hence the snippet
contains no raw newline and the window stays within the text's
bounds. -/
theorem c9_snippet_window (text : List Char) (st en : Nat)
    (h : st ≤ en) :
    snippet_at text st en =
      escNl (pySlice text (max 0 (st - 60)) (min text.length (en + 60))) ∧
    '\n' ∉ snippet_at text st en ∧
    min text.length (en + 60) ≤ text.length := by
  refine ⟨rfl, ?_, Nat.min_le_left _ _⟩
  exact escNl_no_newline _

theorem c9_witness :
    (snippet_at ('a' :: '\n' :: 'b' :: []) 0 1 =
      escNl (pySlice ('a' :: '\n' :: 'b' :: []) (max 0 (0 - 60))
        (min ('a' :: '\n' :: 'b' :: []).length (1 + 60)))) ∧
    '\n' ∉ snippet_at ('a' :: '\n' :: 'b' :: []) 0 1 ∧
    min ('a' :: '\n' :: 'b' :: []).length (1 + 60) ≤
      ('a' :: '\n' :: 'b' :: []).length :=
  c9_snippet_window ('a' :: '\n' :: 'b' :: []) 0 1 (by decide)

/-- Claim C10: every extracted, non-discarded statement whose
comment-stripped text contains a whole-word identifier beginning with
the prefix lx_, xstr or xstring (case-insensitive, i.e. the
`LIKELY_XVAR` pattern) yields a `TranslateNonCharacterRisk` (info)
finding, regardless of CODE PAGE phrases or hex literals. -/
theorem c10_xvar_nonchar_risk (u : Unit) (src : List Char)
    (sp : Nat × Nat) (hc : u.code = some src) (hm : sp ∈ extract src)
    (hnc : is_entirely_commented (pySlice src sp.1 sp.2) = false)
    (hx : LIKELY_XVAR (cleaned_stmt (pySlice src sp.1 sp.2)) = true) :
    ∃ f ∈ scan_unit u, f.issue_type = "TranslateNonCharacterRisk" ∧
      f.severity = "info" ∧ f.line = line_of_offset src sp.1 := by
  refine ⟨mkFinding u src sp.1 sp.2 "TranslateNonCharacterRisk" "info",
    ?_, rfl, rfl, rfl⟩
  apply mem_scan_of_mem_stmt hc hm
  rw [stmtFindings_not_commented u src sp hnc]
  exact mem_classify_nonchar u src sp.1 sp.2 (by rw [hx, Bool.or_true])

theorem c10_witness :
    ∃ f ∈ scan_unit uC10, f.issue_type = "TranslateNonCharacterRisk" ∧
      f.severity = "info" ∧ f.line = line_of_offset bodyC10 0 :=
  c10_xvar_nonchar_risk uC10 bodyC10 (0, 17) rfl (by decide) (by decide)
    (by decide)

end Rule118
